import Mathlib

/-! gochat: room registry, broadcast and the Redis-backed store

A shallow embedding of `chat/chat.go`, `chat/room.go`, `chat/message.go`,
`chat/store.go`, `chat/connection.go` and `redis_store.go`.

* A `Connection` is a non-nil interface value compared by identity; it is
  embedded as a handle number.  Calls made on a connection are recorded as
  `Send` events.
* A Go map is embedded as an association list (`mapGet`, `mapSet`,
  `mapDelete`); a map used as a set (`room.clients`) is a list of keys, and
  ranging over it visits the keys in list order.
* `go f()` does not run `f`: the started goroutine is recorded as a
  `Goroutine` value, and the bodies of the goroutines are separate functions.
* The `Store` interface is embedded as state passing over a backend state `σ`;
  every call made on it is recorded as a `StoreCall`.
* `uint` is 64 bits wide; `uint` arithmetic and the conversion to `int64` wrap.
* The Redis server is embedded by the effect of LPUSH, LTRIM and LRANGE on its
  lists, and by a schedule of the errors its round trips end in;
  `encoding/json` is a parameter of the store methods.
-/

namespace Gochat

/-! ## Go maps as association lists -/

/-- Map lookup `m[k]`: the value and whether the key exists. -/
def mapGet {β : Type} : List (String × β) → String → Option β
  | [], _ => none
  | (k', v) :: rest, k => if k' = k then some v else mapGet rest k

/-- Map assignment `m[k] = v`. -/
def mapSet {β : Type} : List (String × β) → String → β → List (String × β)
  | [], k, v => [(k, v)]
  | (k', v') :: rest, k, v =>
    if k' = k then (k, v) :: rest else (k', v') :: mapSet rest k v

/-- Map deletion `delete(m, k)`. -/
def mapDelete {β : Type} (m : List (String × β)) (k : String) : List (String × β) :=
  m.filter (fun p => decide (p.1 ≠ k))

/-! ## chat/message.go, chat/connection.go -/

/-- The `Message` struct; `ID` is a `uint64`. -/
structure Message where
  ID : Nat
  Time : String
  HTML : String
  Approve : Bool
deriving DecidableEq, Repr

/-- Connection handle: an interface value, compared by identity. -/
abbrev Connection := Nat

/-- One call of a `Connection` method, with its receiver. -/
inductive Send where
  | SendMessage (conn : Connection) (msg : Message)
  | SendMessages (conn : Connection) (msgs : List Message)
  | SendClientsCount (conn : Connection) (count : Nat)
deriving DecidableEq, Repr

/-- The connection a call is made on. -/
def Send.receiver : Send → Connection
  | .SendMessage conn _ => conn
  | .SendMessages conn _ => conn
  | .SendClientsCount conn _ => conn

/-! ## chat/room.go -/

/-- The `room` struct (its mutex is not part of the state). -/
structure room where
  name : String
  clients : List Connection
deriving DecidableEq, Repr

/-- Function `newRoom`. -/
def newRoom (name : String) : room :=
  { name := name, clients := [] }

/-- Method `room.broadcast`: every client but `frm` gets `msg`, then `frm` gets
the copy with `Approve` set. -/
def room.broadcast (r : room) (frm : Connection) (msg : Message) : List Send :=
  (r.clients.filter (fun conn => decide (conn ≠ frm))).map (fun conn => Send.SendMessage conn msg)
    ++ [Send.SendMessage frm { msg with Approve := true }]

/-- Method `room.clientsCount`: `uint(len(r.clients))`. -/
def room.clientsCount (r : room) : Nat :=
  r.clients.length

/-- Method `room.broadcastClientsCount`. -/
def room.broadcastClientsCount (r : room) : List Send :=
  let count := r.clients.length
  r.clients.map (fun conn => Send.SendClientsCount conn count)

/-- Method `room.newClient`: `r.clients[conn] = struct{}{}`. -/
def room.newClient (r : room) (conn : Connection) : room :=
  { r with clients := if conn ∈ r.clients then r.clients else r.clients ++ [conn] }

/-- Method `room.removeClient`: `delete(r.clients, conn)`. -/
def room.removeClient (r : room) (conn : Connection) : room :=
  { r with clients := r.clients.filter (fun x => decide (x ≠ conn)) }

/-! ## chat/store.go -/

/-- The `Store` interface over a backend state `σ`; an error is its text. -/
structure Store (σ : Type) where
  GetMessageID : σ → String → Except String Nat × σ
  AddMessage : σ → String → Message → Option String × σ
  GetMessages : σ → String → Except String (List Message) × σ

/-- One call of a `Store` method, with its arguments. -/
inductive StoreCall where
  | GetMessageID (room : String)
  | AddMessage (room : String) (m : Message)
  | GetMessages (room : String)
deriving DecidableEq, Repr

/-! ## chat/chat.go -/

/-- A Go `error` returned by the chat package: the sentinel
`ErrRoomDoesNotExists`, or a fresh `errors.New` value. -/
inductive Error where
  | ErrRoomDoesNotExists
  | New (text : String)
deriving DecidableEq, Repr

/-- A goroutine started with `go`.  The room it runs on is the one registered
under `room` when it was started. -/
inductive Goroutine where
  | broadcastClientsCount (room : String)
  | history (room : String) (conn : Connection)
  | broadcast (room : String) (frm : Connection) (m : Message)
deriving DecidableEq, Repr

/-- The `Chat` struct (its mutex is not part of the state). -/
structure Chat (σ : Type) where
  store : Store σ
  rooms : List (String × room)

/-- Function `New`. -/
def New {σ : Type} (s : Store σ) : Chat σ :=
  { store := s, rooms := [] }

/-- Method `Chat.NewClient`: the new state and the goroutines started. -/
def Chat.NewClient {σ : Type} (c : Chat σ) (room : String) (conn : Connection) :
    Chat σ × List Goroutine :=
  let r := match mapGet c.rooms room with
    | some r => r
    | none => newRoom room
  ({ c with rooms := mapSet c.rooms room (r.newClient conn) },
    [Goroutine.broadcastClientsCount room, Goroutine.history room conn])

/-- The body of the second goroutine of `Chat.NewClient`: the backend state,
the store calls made and the connection calls made. -/
def Chat.history {σ : Type} (c : Chat σ) (s : σ) (room : String) (conn : Connection) :
    σ × List StoreCall × List Send :=
  match c.store.GetMessages s room with
  | (.error _, s1) => (s1, [StoreCall.GetMessages room], [])
  | (.ok msgs, s1) =>
    if msgs.length > 0 then (s1, [StoreCall.GetMessages room], [Send.SendMessages conn msgs])
    else (s1, [StoreCall.GetMessages room], [])

/-- Method `Chat.RemoveClient`: the new state, the returned error and the
goroutines started. -/
def Chat.RemoveClient {σ : Type} (c : Chat σ) (room : String) (conn : Connection) :
    Chat σ × Option Error × List Goroutine :=
  match mapGet c.rooms room with
  | none => (c, some Error.ErrRoomDoesNotExists, [])
  | some r =>
    let r1 := r.removeClient conn
    if r1.clientsCount = 0 then
      ({ c with rooms := mapDelete c.rooms room }, none, [])
    else
      ({ c with rooms := mapSet c.rooms room r1 }, none, [Goroutine.broadcastClientsCount room])

/-- What one `Chat.NewMessage` call did. -/
structure Posted (σ : Type) where
  err : Option Error
  store : σ
  calls : List StoreCall
  started : List Goroutine

/-- Method `Chat.NewMessage`.  `render` is the markdown-and-sanitise pipeline
and `now` the formatted current time. -/
def Chat.NewMessage {σ : Type} (render : String → String) (now : String)
    (c : Chat σ) (s : σ) (room : String) (frm : Connection) (text : String) : Posted σ :=
  match mapGet c.rooms room with
  | none => { err := some Error.ErrRoomDoesNotExists, store := s, calls := [], started := [] }
  | some _ =>
    match c.store.GetMessageID s room with
    | (.error e, s1) =>
      { err := some (Error.New ("failed to get message ID from store: " ++ e)), store := s1,
        calls := [StoreCall.GetMessageID room], started := [] }
    | (.ok id, s1) =>
      let m : Message := { ID := id, Time := now, HTML := render text, Approve := false }
      match c.store.AddMessage s1 room m with
      | (some e, s2) =>
        { err := some (Error.New ("failed to add message to store: " ++ e)), store := s2,
          calls := [StoreCall.GetMessageID room, StoreCall.AddMessage room m], started := [] }
      | (none, s2) =>
        { err := none, store := s2,
          calls := [StoreCall.GetMessageID room, StoreCall.AddMessage room m],
          started := [Goroutine.broadcast room frm m] }

/-! ## Call sequences -/

/-- A membership call on the chat. -/
inductive Op where
  | NewClient (room : String) (conn : Connection)
  | RemoveClient (room : String) (conn : Connection)
deriving DecidableEq, Repr

/-- The state after one membership call. -/
def Chat.step {σ : Type} (c : Chat σ) : Op → Chat σ
  | .NewClient room conn => (c.NewClient room conn).1
  | .RemoveClient room conn => (c.RemoveClient room conn).1

/-- The state after a sequence of membership calls, first call first. -/
def Chat.run {σ : Type} (c : Chat σ) (ops : List Op) : Chat σ :=
  ops.foldl Chat.step c

/-- The member count reported for a room name: `clientsCount` of the registered
room, zero when no room is registered. -/
def Chat.reportedCount {σ : Type} (c : Chat σ) (room : String) : Nat :=
  match mapGet c.rooms room with
  | some r => r.clientsCount
  | none => 0

/-! ## The member set the calls describe -/

/-- The handles joined to each room name and not since removed, after one more
call: a join inserts the handle, a leave erases it. -/
def joinedStep (f : String → Finset Connection) : Op → String → Finset Connection
  | .NewClient room conn => fun k => if k = room then insert conn (f k) else f k
  | .RemoveClient room conn => fun k => if k = room then (f k).erase conn else f k

/-- The distinct handles joined to `room` and not since removed by the calls
`ops`, first call first. -/
def joinedNotRemoved (ops : List Op) (room : String) : Finset Connection :=
  ops.foldl joinedStep (fun _ => ∅) room

/-! ## redis_store.go -/

/-- Go `uint` subtraction `a - b`: 64 bits, wrapping. -/
def uintSub (a b : Nat) : Nat :=
  (a % 2 ^ 64 + 2 ^ 64 - b % 2 ^ 64) % 2 ^ 64

/-- Go conversion `int64(x)` of a `uint`. -/
def int64 (x : Nat) : Int :=
  if x % 2 ^ 64 < 2 ^ 63 then ((x % 2 ^ 64 : Nat) : Int) else ((x % 2 ^ 64 : Nat) : Int) - 2 ^ 64

/-- The elements of a Redis list selected by the inclusive index range
`start..stop` of LRANGE and LTRIM: a negative index counts from the tail, and
an out-of-range end is clamped. -/
def redisRange (l : List String) (start stop : Int) : List String :=
  let llen : Int := (l.length : Int)
  let start1 := if start < 0 then llen + start else start
  let stop1 := if stop < 0 then llen + stop else stop
  let start2 := if start1 < 0 then 0 else start1
  if start2 > stop1 ∨ start2 ≥ llen then []
  else
    let stop2 := if stop1 ≥ llen then llen - 1 else stop1
    (l.drop start2.toNat).take (stop2 - start2 + 1).toNat

/-- A Redis server as its client sees it: the list keys (index 0 is the head of
a list), and for each round trip still to come the error that round trip ends
in, if any.  When the schedule is used up every round trip succeeds. -/
structure Redis where
  lists : List (String × List String)
  errors : List (Option String)
deriving DecidableEq, Repr

/-- A command queued on a pipeline. -/
inductive Cmd where
  | LPush (key : String) (value : String)
  | LTrim (key : String) (start stop : Int)
deriving DecidableEq, Repr

/-- The effect of a command on the list keys.  LPUSH makes the value the head
of the list, a missing key being an empty list.  LTRIM keeps the selected
range, and an emptied list is removed. -/
def Cmd.apply : Cmd → List (String × List String) → List (String × List String)
  | .LPush key value, lists => mapSet lists key (value :: (mapGet lists key).getD [])
  | .LTrim key start stop, lists =>
    match mapGet lists key with
    | none => lists
    | some l =>
      if redisRange l start stop = [] then mapDelete lists key
      else mapSet lists key (redisRange l start stop)

/-- One round trip to the server: the error it ends in, and the server with the
rest of the schedule. -/
def Redis.roundTrip (db : Redis) : Option String × Redis :=
  match db.errors with
  | [] => (none, db)
  | e :: rest => (e, { db with errors := rest })

/-- Method `Exec` of a transactional pipeline: one round trip; the queued
commands take effect, in order and together, when it succeeds, and not at all
when it ends in an error. -/
def Redis.Exec (db : Redis) (pipe : List Cmd) : Option String × Redis :=
  match db.roundTrip with
  | (some e, db1) => (some e, db1)
  | (none, db1) => (none, { db1 with lists := pipe.foldl (fun l c => c.apply l) db1.lists })

/-- Redis command LRANGE, with the error of its round trip. -/
def Redis.LRange (db : Redis) (key : String) (start stop : Int) :
    Except String (List String) × Redis :=
  match db.roundTrip with
  | (some e, db1) => (.error e, db1)
  | (none, db1) => (.ok (redisRange ((mapGet db1.lists key).getD []) start stop), db1)

/-- The two `encoding/json` functions, at type `Message`. -/
structure JSON where
  Marshal : Message → Except String String
  Unmarshal : String → Except String Message

/-- The text `Marshal` produces for a message (empty when it fails). -/
def JSON.text (J : JSON) (m : Message) : String :=
  match J.Marshal m with
  | .ok t => t
  | .error _ => ""

/-- The `redisChatStore` struct (its client is the server it talks to). -/
structure redisChatStore where
  maxMessagesPerRoom : Nat

/-- Method `redisChatStore.AddMessage`: the returned error and the server. -/
def redisChatStore.AddMessage (J : JSON) (s : redisChatStore) (db : Redis) (room : String)
    (m : Message) : Option String × Redis :=
  let key := room ++ "/messages"
  match J.Marshal m with
  | .error e => (some e, db)
  | .ok mJSON =>
    let pipe := [Cmd.LPush key mJSON,
      Cmd.LTrim key 0 (int64 (uintSub s.maxMessagesPerRoom 1))]
    db.Exec pipe

/-- The decoding loop of `redisChatStore.GetMessages`, over the entries in the
order the loop visits them. -/
def redisChatStore.decode (J : JSON) : List String → List Message → Except String (List Message)
  | [], msgs => .ok msgs
  | x :: rest, msgs =>
    match J.Unmarshal x with
    | .error e => .error e
    | .ok msg => redisChatStore.decode J rest (msgs ++ [msg])

/-- Method `redisChatStore.GetMessages`: the returned messages or error, and
the server. -/
def redisChatStore.GetMessages (J : JSON) (s : redisChatStore) (db : Redis) (room : String) :
    Except String (List Message) × Redis :=
  match db.LRange (room ++ "/messages") 0 (int64 (uintSub s.maxMessagesPerRoom 1)) with
  | (.error e, db1) => (.error e, db1)
  | (.ok res, db1) => (redisChatStore.decode J res.reverse [], db1)

/-- The server after `AddMessage` of each message in turn, or `none` as soon
as one call returns an error. -/
def redisChatStore.addAll (J : JSON) (s : redisChatStore) (room : String) :
    Redis → List Message → Option Redis
  | db, [] => some db
  | db, m :: rest =>
    match redisChatStore.AddMessage J s db room m with
    | (some _, _) => none
    | (none, db1) => redisChatStore.addAll J s room db1 rest

/-! ## The invariant linking registry and member sets -/

/-- The registry and the member sets described by the calls agree: a registered
room lists, without repetition, exactly the members of its name, and is not
empty; an unregistered name has no member. -/
def Agrees (rooms : List (String × room)) (f : String → Finset Connection) : Prop :=
  ∀ k, (∀ r, mapGet rooms k = some r →
      r.clients.Nodup ∧ r.clients ≠ [] ∧ r.clients.toFinset = f k) ∧
    (mapGet rooms k = none → f k = ∅)

/-! ## A store to run the chat on -/

/-- An in-memory `Store`: a counter of issued IDs and one history; each flag
makes the method of that name return an error. -/
def memoryStore (failID failAdd failGet : Bool) : Store (Nat × List Message) where
  GetMessageID := fun s _ =>
    if failID then (.error "GetMessageID failed", s) else (.ok (s.1 + 1), (s.1 + 1, s.2))
  AddMessage := fun s _ m =>
    if failAdd then (some "AddMessage failed", s) else (none, (s.1, s.2 ++ [m]))
  GetMessages := fun s _ =>
    if failGet then (.error "GetMessages failed", s) else (.ok s.2, s)

/-- A JSON codec for messages that carry nothing but their HTML: the encoding
is the HTML text itself. -/
def htmlJSON : JSON where
  Marshal := fun m => .ok m.HTML
  Unmarshal := fun t => .ok { ID := 0, Time := "", HTML := t, Approve := false }

/-! ## Map lemmas -/

theorem mapGet_mapSet {β : Type} (m : List (String × β)) (k k' : String) (v : β) :
    mapGet (mapSet m k v) k' = if k' = k then some v else mapGet m k' := by
  induction m with
  | nil =>
    by_cases h : k' = k
    · simp [mapSet, mapGet, h]
    · have h' : ¬ k = k' := fun e => h e.symm
      simp [mapSet, mapGet, h, h']
  | cons p rest ih =>
    obtain ⟨a, b⟩ := p
    by_cases hak : a = k
    · by_cases h : k' = k
      · simp [mapSet, mapGet, hak, h]
      · have h' : ¬ k = k' := fun e => h e.symm
        simp [mapSet, mapGet, hak, h, h']
    · by_cases h : k' = k
      · have h' : ¬ a = k' := fun e => hak (e.trans h)
        simp only [mapSet, if_neg hak, mapGet, if_neg h', ih, if_pos h]
      · simp only [mapSet, if_neg hak, mapGet, ih, if_neg h]

theorem mapGet_mapDelete {β : Type} (m : List (String × β)) (k k' : String) :
    mapGet (mapDelete m k) k' = if k' = k then none else mapGet m k' := by
  induction m with
  | nil => simp [mapDelete, mapGet]
  | cons p rest ih =>
    obtain ⟨a, b⟩ := p
    unfold mapDelete at ih ⊢
    by_cases hak : a = k
    · by_cases h : k' = k
      · simpa [List.filter, hak, h] using ih
      · have h' : ¬ k = k' := fun e => h e.symm
        simpa [List.filter, hak, h, mapGet, h'] using ih
    · by_cases h : k' = k
      · have h' : ¬ a = k' := fun e => hak (e.trans h)
        simpa [List.filter, hak, h, mapGet, h'] using ih
      · by_cases h2 : a = k'
        · simp [List.filter, hak, h, mapGet, h2]
        · simpa [List.filter, hak, h, mapGet, h2] using ih

theorem mem_of_mapGet {β : Type} (m : List (String × β)) (k : String) (v : β)
    (h : mapGet m k = some v) : (k, v) ∈ m := by
  induction m with
  | nil => simp [mapGet] at h
  | cons p rest ih =>
    obtain ⟨a, b⟩ := p
    by_cases hak : a = k
    · simp [mapGet, hak] at h
      simp [hak, h]
    · simp only [mapGet, if_neg hak] at h
      exact List.mem_cons_of_mem _ (ih h)

theorem mem_mapSet {β : Type} (m : List (String × β)) (k : String) (v : β) (p : String × β)
    (h : p ∈ mapSet m k v) : p = (k, v) ∨ p ∈ m := by
  induction m with
  | nil => simpa [mapSet] using h
  | cons q rest ih =>
    obtain ⟨a, b⟩ := q
    by_cases hak : a = k
    · simp only [mapSet, if_pos hak, List.mem_cons] at h
      rcases h with h | h
      · exact Or.inl h
      · exact Or.inr (List.mem_cons_of_mem _ h)
    · simp only [mapSet, if_neg hak, List.mem_cons] at h
      rcases h with h | h
      · exact Or.inr (h ▸ List.mem_cons_self _ _)
      · rcases ih h with h1 | h1
        · exact Or.inl h1
        · exact Or.inr (List.mem_cons_of_mem _ h1)

theorem mem_mapDelete {β : Type} (m : List (String × β)) (k : String) (p : String × β)
    (h : p ∈ mapDelete m k) : p ∈ m :=
  List.mem_of_mem_filter h

/-! ## Room lemmas -/

theorem newClient_clients_ne_nil (r : room) (conn : Connection) :
    (r.newClient conn).clients ≠ [] := by
  unfold room.newClient
  by_cases h : conn ∈ r.clients
  · simp only [if_pos h]
    exact List.ne_nil_of_mem h
  · simp [if_neg h]

theorem run_append_singleton {σ : Type} (c : Chat σ) (ops : List Op) (op : Op) :
    c.run (ops ++ [op]) = (c.run ops).step op := by
  simp [Chat.run, List.foldl_append]

theorem step_rooms_nonempty {σ : Type} (c : Chat σ) (op : Op)
    (h : ∀ p ∈ c.rooms, p.2.clients ≠ []) : ∀ p ∈ (c.step op).rooms, p.2.clients ≠ [] := by
  intro p hp
  cases op with
  | NewClient name conn =>
    simp only [Chat.step, Chat.NewClient] at hp
    rcases mem_mapSet _ _ _ _ hp with h1 | h1
    · rw [h1]
      exact newClient_clients_ne_nil _ _
    · exact h p h1
  | RemoveClient name conn =>
    simp only [Chat.step, Chat.RemoveClient] at hp
    cases hg : mapGet c.rooms name with
    | none =>
      rw [hg] at hp
      exact h p hp
    | some r =>
      rw [hg] at hp
      by_cases hz : (r.removeClient conn).clientsCount = 0
      · simp only [if_pos hz] at hp
        exact h p (mem_mapDelete _ _ _ hp)
      · simp only [if_neg hz] at hp
        rcases mem_mapSet _ _ _ _ hp with h1 | h1
        · rw [h1]
          intro he
          have he1 : (r.removeClient conn).clients = [] := he
          exact hz (by simp [room.clientsCount, he1])
        · exact h p h1

theorem run_rooms_nonempty {σ : Type} (S : Store σ) (ops : List Op) :
    ∀ p ∈ ((New S).run ops).rooms, p.2.clients ≠ [] := by
  induction ops using List.reverseRecOn with
  | nil => simp [Chat.run, New]
  | append_singleton ops op ih =>
    rw [run_append_singleton]
    exact step_rooms_nonempty _ _ ih

/-! ## The registry (C1, C2, C3) -/

theorem step_creates_only_by_NewClient {σ : Type} (c : Chat σ) (name : String) (op : Op)
    (h : mapGet c.rooms name = none) (h1 : mapGet (c.step op).rooms name ≠ none) :
    ∃ conn, op = Op.NewClient name conn := by
  cases op with
  | NewClient k conn =>
    by_cases hk : name = k
    · exact ⟨conn, by rw [hk]⟩
    · exfalso
      apply h1
      simp only [Chat.step, Chat.NewClient, mapGet_mapSet, if_neg hk]
      exact h
  | RemoveClient k conn =>
    exfalso
    apply h1
    simp only [Chat.step, Chat.RemoveClient]
    cases hg : mapGet c.rooms k with
    | none => exact h
    | some r =>
      by_cases hz : (r.removeClient conn).clientsCount = 0
      · simp only [if_pos hz, mapGet_mapDelete]
        split_ifs
        · rfl
        · exact h
      · simp only [if_neg hz, mapGet_mapSet]
        split_ifs with hk
        · rw [hk, hg] at h
          cases h
        · exact h

theorem step_deletes_only_by_RemoveClient {σ : Type} (c : Chat σ) (name : String) (op : Op)
    (r : room) (h : mapGet c.rooms name = some r) (h1 : mapGet (c.step op).rooms name = none) :
    ∃ conn, op = Op.RemoveClient name conn ∧ (r.removeClient conn).clientsCount = 0 := by
  cases op with
  | NewClient k conn =>
    exfalso
    simp only [Chat.step, Chat.NewClient, mapGet_mapSet] at h1
    split_ifs at h1
    rw [h] at h1
    cases h1
  | RemoveClient k conn =>
    simp only [Chat.step, Chat.RemoveClient] at h1
    cases hg : mapGet c.rooms k with
    | none =>
      rw [hg] at h1
      rw [h] at h1
      cases h1
    | some r0 =>
      rw [hg] at h1
      by_cases hz : (r0.removeClient conn).clientsCount = 0
      · simp only [if_pos hz, mapGet_mapDelete] at h1
        by_cases hk : name = k
        · subst hk
          rw [h] at hg
          cases hg
          exact ⟨conn, rfl, hz⟩
        · rw [if_neg hk, h] at h1
          cases h1
      · simp only [if_neg hz, mapGet_mapSet] at h1
        split_ifs at h1
        rw [h] at h1
        cases h1

/-- C1: after any sequence of NewClient and RemoveClient calls starting from
`New`, every room in the registry has a non-empty client set.  A room appears
under a name only by a NewClient for that name, which on an unregistered name
registers a room holding just the joining connection; a room disappears only by
a RemoveClient for its name that leaves its client set empty, and every such
RemoveClient deletes it while any other keeps it registered. -/
theorem registry_rooms_never_empty {σ : Type} (S : Store σ) (ops : List Op) (c : Chat σ)
    (name : String) (conn : Connection) :
    (∀ p ∈ ((New S).run ops).rooms, p.2.clients ≠ []) ∧
    (mapGet c.rooms name = none →
      mapGet (c.NewClient name conn).1.rooms name = some { name := name, clients := [conn] }) ∧
    (∀ r, mapGet c.rooms name = some r →
      ((r.removeClient conn).clientsCount = 0 →
        mapGet (c.RemoveClient name conn).1.rooms name = none) ∧
      ((r.removeClient conn).clientsCount ≠ 0 →
        mapGet (c.RemoveClient name conn).1.rooms name = some (r.removeClient conn))) ∧
    (∀ op, mapGet c.rooms name = none → mapGet (c.step op).rooms name ≠ none →
      ∃ conn1, op = Op.NewClient name conn1) ∧
    (∀ op r, mapGet c.rooms name = some r → mapGet (c.step op).rooms name = none →
      ∃ conn1, op = Op.RemoveClient name conn1 ∧ (r.removeClient conn1).clientsCount = 0) := by
  refine ⟨run_rooms_nonempty S ops, ?_, ?_, ?_, ?_⟩
  · intro h
    simp [Chat.NewClient, h, mapGet_mapSet, newRoom, room.newClient]
  · intro r h
    constructor
    · intro hz
      simp [Chat.RemoveClient, h, hz, mapGet_mapDelete]
    · intro hz
      simp [Chat.RemoveClient, h, hz, mapGet_mapSet]
  · intro op h h1
    exact step_creates_only_by_NewClient c name op h h1
  · intro op r h h1
    exact step_deletes_only_by_RemoveClient c name op r h h1

/-- C1 at concrete inputs: two joins and a leave on "lobby", the first join on
the empty registry, and the two kinds of leave on a one-member room. -/
theorem registry_rooms_never_empty_witness :
    ((New (memoryStore false false false)).run
        [Op.NewClient "lobby" 1, Op.NewClient "lobby" 2, Op.RemoveClient "lobby" 1]).rooms
      = [("lobby", { name := "lobby", clients := [2] })] ∧
    (∀ p ∈ ((New (memoryStore false false false)).run
        [Op.NewClient "lobby" 1, Op.NewClient "lobby" 2, Op.RemoveClient "lobby" 1]).rooms,
      p.2.clients ≠ []) ∧
    mapGet ((New (memoryStore false false false)).NewClient "lobby" 1).1.rooms "lobby"
      = some { name := "lobby", clients := [1] } ∧
    mapGet ((((New (memoryStore false false false)).NewClient "lobby" 1).1).RemoveClient
      "lobby" 1).1.rooms "lobby" = none ∧
    mapGet ((((New (memoryStore false false false)).NewClient "lobby" 1).1).RemoveClient
      "lobby" 7).1.rooms "lobby" = some { name := "lobby", clients := [1] } :=
  ⟨by rfl,
   (registry_rooms_never_empty (memoryStore false false false)
      [Op.NewClient "lobby" 1, Op.NewClient "lobby" 2, Op.RemoveClient "lobby" 1]
      (New (memoryStore false false false)) "lobby" 1).1,
   (registry_rooms_never_empty (memoryStore false false false) []
      (New (memoryStore false false false)) "lobby" 1).2.1 (by rfl),
   ((registry_rooms_never_empty (memoryStore false false false) []
      ((New (memoryStore false false false)).NewClient "lobby" 1).1 "lobby" 1).2.2.1
      { name := "lobby", clients := [1] } (by rfl)).1 (by decide),
   ((registry_rooms_never_empty (memoryStore false false false) []
      ((New (memoryStore false false false)).NewClient "lobby" 1).1 "lobby" 7).2.2.1
      { name := "lobby", clients := [1] } (by rfl)).2 (by decide)⟩

/-- C2: when room `name` has exactly the one member `conn`, RemoveClient of
that member leaves the name unregistered; NewMessage to the name then returns
ErrRoomDoesNotExists, whatever the author, text and store state, having called
no store method and started no goroutine; and after a following NewClient for
the name, NewMessage does not return ErrRoomDoesNotExists. -/
theorem post_fails_after_last_leave {σ : Type} (render : String → String) (now : String)
    (c : Chat σ) (s : σ) (name : String) (conn conn1 frm : Connection) (text : String)
    (r : room) (h : mapGet c.rooms name = some r) (h1 : r.clients = [conn]) :
    mapGet (c.RemoveClient name conn).1.rooms name = none ∧
    (c.RemoveClient name conn).2.1 = none ∧
    ((c.RemoveClient name conn).1.NewMessage render now s name frm text).err
      = some Error.ErrRoomDoesNotExists ∧
    ((c.RemoveClient name conn).1.NewMessage render now s name frm text).calls = [] ∧
    ((c.RemoveClient name conn).1.NewMessage render now s name frm text).store = s ∧
    ((c.RemoveClient name conn).1.NewMessage render now s name frm text).started = [] ∧
    (((c.RemoveClient name conn).1.NewClient name conn1).1.NewMessage
      render now s name frm text).err ≠ some Error.ErrRoomDoesNotExists := by
  have hz : (r.removeClient conn).clientsCount = 0 := by
    simp [room.removeClient, room.clientsCount, h1]
  have hrooms : (c.RemoveClient name conn).1.rooms = mapDelete c.rooms name := by
    simp [Chat.RemoveClient, h, hz]
  have habs : mapGet (c.RemoveClient name conn).1.rooms name = none := by
    rw [hrooms, mapGet_mapDelete]
    simp
  refine ⟨habs, ?_, ?_, ?_, ?_, ?_, ?_⟩
  · simp [Chat.RemoveClient, h, hz]
  · simp [Chat.NewMessage, habs]
  · simp [Chat.NewMessage, habs]
  · simp [Chat.NewMessage, habs]
  · simp [Chat.NewMessage, habs]
  · have hpres : mapGet ((c.RemoveClient name conn).1.NewClient name conn1).1.rooms name
        = some ((newRoom name).newClient conn1) := by
      simp [Chat.NewClient, habs, mapGet_mapSet]
    simp only [Chat.NewMessage, hpres]
    split <;> try split
    all_goals simp

/-- C2 at a concrete input: "lobby" with the single member 1, on a working
in-memory store. -/
theorem post_fails_after_last_leave_witness :
    ((((New (memoryStore false false false)).NewClient "lobby" 1).1.RemoveClient
        "lobby" 1).1.NewMessage id "now" (0, []) "lobby" 1 "hi").err
      = some Error.ErrRoomDoesNotExists ∧
    (((((New (memoryStore false false false)).NewClient "lobby" 1).1.RemoveClient
        "lobby" 1).1.NewClient "lobby" 2).1.NewMessage id "now" (0, []) "lobby" 1 "hi").err
      ≠ some Error.ErrRoomDoesNotExists :=
  ⟨(post_fails_after_last_leave id "now" ((New (memoryStore false false false)).NewClient
      "lobby" 1).1 (0, []) "lobby" 1 2 1 "hi" { name := "lobby", clients := [1] }
      (by rfl) (by rfl)).2.2.1,
   (post_fails_after_last_leave id "now" ((New (memoryStore false false false)).NewClient
      "lobby" 1).1 (0, []) "lobby" 1 2 1 "hi" { name := "lobby", clients := [1] }
      (by rfl) (by rfl)).2.2.2.2.2.2⟩

/-- C3: RemoveClient returns ErrRoomDoesNotExists exactly when the name is not
a key of the registry; then the registry (with every client set in it) is
unchanged and no goroutine is started; otherwise it returns nil. -/
theorem removeClient_unknown_room {σ : Type} (c : Chat σ) (name : String) (conn : Connection) :
    ((c.RemoveClient name conn).2.1 = some Error.ErrRoomDoesNotExists
      ↔ mapGet c.rooms name = none) ∧
    (mapGet c.rooms name = none →
      (c.RemoveClient name conn).1.rooms = c.rooms ∧ (c.RemoveClient name conn).2.2 = []) ∧
    (mapGet c.rooms name ≠ none → (c.RemoveClient name conn).2.1 = none) := by
  cases hg : mapGet c.rooms name with
  | none => simp [Chat.RemoveClient, hg]
  | some r =>
    by_cases hz : (r.removeClient conn).clientsCount = 0
    · simp [Chat.RemoveClient, hg, hz]
    · simp [Chat.RemoveClient, hg, hz]

/-- C3 at concrete inputs: a leave from the unknown room "nowhere" and a leave
from the registered room "lobby". -/
theorem removeClient_unknown_room_witness :
    ((((New (memoryStore false false false)).NewClient "lobby" 1).1.RemoveClient
        "nowhere" 1).1.rooms = ((New (memoryStore false false false)).NewClient "lobby" 1).1.rooms
      ∧ (((New (memoryStore false false false)).NewClient "lobby" 1).1.RemoveClient
        "nowhere" 1).2.2 = []) ∧
    (((New (memoryStore false false false)).NewClient "lobby" 1).1.RemoveClient
        "lobby" 1).2.1 = none :=
  ⟨(removeClient_unknown_room ((New (memoryStore false false false)).NewClient "lobby" 1).1
      "nowhere" 1).2.1 (by rfl),
   (removeClient_unknown_room ((New (memoryStore false false false)).NewClient "lobby" 1).1
      "lobby" 1).2.2 (by decide)⟩

/-! ## Broadcast (C4, C10) -/

theorem filter_eq_singleton_of_nodup (l : List Connection) (a : Connection)
    (hn : l.Nodup) (ha : a ∈ l) : l.filter (fun x => decide (x = a)) = [a] := by
  induction l with
  | nil => cases ha
  | cons x xs ih =>
    rw [List.nodup_cons] at hn
    by_cases hx : x = a
    · subst hx
      have hnil : xs.filter (fun y => decide (y = x)) = [] := by
        rw [List.filter_eq_nil_iff]
        intro y hy
        simp only [decide_eq_true_eq]
        intro hyx
        exact hn.1 (hyx ▸ hy)
      simp [List.filter, hnil]
    · have ha1 : a ∈ xs := by
        rcases List.mem_cons.mp ha with h | h
        · exact absurd h.symm hx
        · exact h
      simp [List.filter, hx, ih hn.2 ha1]

theorem receiver_SendMessage (x : Connection) (msg : Message) :
    (Send.SendMessage x msg).receiver = x := rfl

theorem broadcast_loop_to (l : List Connection) (frm conn : Connection) (msg : Message) :
    ((l.filter (fun x => decide (x ≠ frm))).map (fun x => Send.SendMessage x msg)).filter
        (fun e => decide (e.receiver = conn))
      = if conn = frm then []
        else (l.filter (fun x => decide (x = conn))).map (fun x => Send.SendMessage x msg) := by
  induction l with
  | nil => simp
  | cons x xs ih =>
    by_cases hc : conn = frm
    · subst hc
      simp only [if_true] at ih ⊢
      by_cases hx : x = conn
      · subst hx
        simpa [List.filter_cons] using ih
      · simpa [List.filter_cons, hx, receiver_SendMessage] using ih
    · have hc1 : ¬ frm = conn := fun e => hc e.symm
      simp only [if_neg hc] at ih ⊢
      by_cases hx : x = frm
      · subst hx
        simpa [List.filter_cons, hc1] using ih
      · by_cases hx1 : x = conn
        · subst hx1
          simpa [List.filter_cons, hc, receiver_SendMessage] using ih
        · simpa [List.filter_cons, hx, receiver_SendMessage, hx1] using ih

theorem broadcast_to_author (r : room) (frm : Connection) (msg : Message) :
    (r.broadcast frm msg).filter (fun e => decide (e.receiver = frm))
      = [Send.SendMessage frm { msg with Approve := true }] := by
  unfold room.broadcast
  rw [List.filter_append, broadcast_loop_to]
  simp [receiver_SendMessage]

/-- C4: for a room whose client set (listed without repetition, as the keys of
a map are) contains the author `frm`, the calls that `room.broadcast` makes on a member other than `frm` are exactly one SendMessage
with `msg` itself; the calls it makes on `frm` are exactly one SendMessage with
`msg` whose Approve is true and whose ID, Time and HTML are those of `msg`; and
every call it makes is made on a member. -/
theorem broadcast_delivers_once (r : room) (frm : Connection) (msg : Message)
    (hset : r.clients.Nodup) (hfrm : frm ∈ r.clients) :
    (∀ conn ∈ r.clients, conn ≠ frm →
      (r.broadcast frm msg).filter (fun e => decide (e.receiver = conn))
        = [Send.SendMessage conn msg]) ∧
    (r.broadcast frm msg).filter (fun e => decide (e.receiver = frm))
      = [Send.SendMessage frm
          { ID := msg.ID, Time := msg.Time, HTML := msg.HTML, Approve := true }] ∧
    (∀ e ∈ r.broadcast frm msg, e.receiver ∈ r.clients) := by
  refine ⟨?_, broadcast_to_author r frm msg, ?_⟩
  · intro conn hconn hne
    unfold room.broadcast
    rw [List.filter_append, broadcast_loop_to, if_neg hne,
      filter_eq_singleton_of_nodup _ _ hset hconn]
    have hne1 : ¬ frm = conn := fun e => hne e.symm
    simp [receiver_SendMessage, hne1]
  · intro e he
    unfold room.broadcast at he
    rcases List.mem_append.mp he with h | h
    · rcases List.mem_map.mp h with ⟨x, hx, hxe⟩
      rw [← hxe]
      exact (List.mem_filter.mp hx).1
    · rw [List.mem_singleton] at h
      rw [h]
      exact hfrm

/-- C4 at a concrete input: members 1 (the author) and 2, and a message whose
Approve is false: 2 is sent the message as it is, 1 the copy with Approve true. -/
theorem broadcast_delivers_once_witness :
    (room.broadcast { name := "lobby", clients := [1, 2] } 1
        { ID := 1, Time := "t", HTML := "hi", Approve := false }).filter
        (fun e => decide (e.receiver = 2))
      = [Send.SendMessage 2 { ID := 1, Time := "t", HTML := "hi", Approve := false }] ∧
    (room.broadcast { name := "lobby", clients := [1, 2] } 1
        { ID := 1, Time := "t", HTML := "hi", Approve := false }).filter
        (fun e => decide (e.receiver = 1))
      = [Send.SendMessage 1 { ID := 1, Time := "t", HTML := "hi", Approve := true }] :=
  ⟨(broadcast_delivers_once { name := "lobby", clients := [1, 2] } 1
      { ID := 1, Time := "t", HTML := "hi", Approve := false } (by decide) (by decide)).1
      2 (by decide) (by decide),
   (broadcast_delivers_once { name := "lobby", clients := [1, 2] } 1
      { ID := 1, Time := "t", HTML := "hi", Approve := false } (by decide) (by decide)).2.1⟩

/-- C10: on a registered room, when the store calls succeed, NewMessage returns
nil and starts the broadcast for every author `frm`, member of the room or not;
and for every room and author, member or not, the calls `room.broadcast` makes
on the author are exactly one SendMessage, carrying the message with Approve
true. -/
theorem author_need_not_be_member {σ : Type} (render : String → String) (now : String)
    (c : Chat σ) (s s1 s2 : σ) (name : String) (frm : Connection) (text : String)
    (r : room) (id : Nat) (h : mapGet c.rooms name = some r)
    (hid : c.store.GetMessageID s name = (.ok id, s1))
    (hadd : c.store.AddMessage s1 name
      { ID := id, Time := now, HTML := render text, Approve := false } = (none, s2)) :
    (c.NewMessage render now s name frm text).err = none ∧
    (c.NewMessage render now s name frm text).started
      = [Goroutine.broadcast name frm
          { ID := id, Time := now, HTML := render text, Approve := false }] ∧
    (∀ (r1 : room) (msg : Message),
      (r1.broadcast frm msg).filter (fun e => decide (e.receiver = frm))
        = [Send.SendMessage frm
            { ID := msg.ID, Time := msg.Time, HTML := msg.HTML, Approve := true }]) := by
  refine ⟨?_, ?_, fun r1 msg => broadcast_to_author r1 frm msg⟩
  · simp [Chat.NewMessage, h, hid, hadd]
  · simp [Chat.NewMessage, h, hid, hadd]

/-- C10 at a concrete input: connection 9 posts to "lobby", whose only member
is 1, and the broadcast on that room sends 9 its approved copy. -/
theorem author_need_not_be_member_witness :
    (((New (memoryStore false false false)).NewClient "lobby" 1).1.NewMessage
        id "now" (0, []) "lobby" 9 "hi").err = none ∧
    (room.broadcast { name := "lobby", clients := [1] } 9
        { ID := 1, Time := "now", HTML := "hi", Approve := false }).filter
        (fun e => decide (e.receiver = 9))
      = [Send.SendMessage 9 { ID := 1, Time := "now", HTML := "hi", Approve := true }] :=
  ⟨(author_need_not_be_member id "now"
      ((New (memoryStore false false false)).NewClient "lobby" 1).1 (0, []) (1, [])
      (1, [{ ID := 1, Time := "now", HTML := "hi", Approve := false }]) "lobby" 9 "hi"
      { name := "lobby", clients := [1] } 1 (by rfl) (by rfl) (by rfl)).1,
   (author_need_not_be_member id "now"
      ((New (memoryStore false false false)).NewClient "lobby" 1).1 (0, []) (1, [])
      (1, [{ ID := 1, Time := "now", HTML := "hi", Approve := false }]) "lobby" 9 "hi"
      { name := "lobby", clients := [1] } 1 (by rfl) (by rfl) (by rfl)).2.2
      { name := "lobby", clients := [1] }
      { ID := 1, Time := "now", HTML := "hi", Approve := false }⟩

/-! ## Posting (C5, C6) -/

/-- C5: on a registered room, if GetMessageID returns an error then NewMessage
returns a non-nil error, its only store call is that GetMessageID (so
AddMessage is not called) and it starts no goroutine; if GetMessageID succeeds
and AddMessage returns an error then NewMessage returns a non-nil error, calls
each of the two once and starts no goroutine.  In every case the store calls
of one NewMessage are none, GetMessageID alone, or GetMessageID then one
AddMessage. -/
theorem store_failure_aborts_post {σ : Type} (render : String → String) (now : String)
    (c : Chat σ) (s : σ) (name : String) (frm : Connection) (text : String) (r : room)
    (h : mapGet c.rooms name = some r) :
    (∀ e s1, c.store.GetMessageID s name = (.error e, s1) →
      (c.NewMessage render now s name frm text).err ≠ none ∧
      (c.NewMessage render now s name frm text).calls = [StoreCall.GetMessageID name] ∧
      (∀ k m, StoreCall.AddMessage k m ∉ (c.NewMessage render now s name frm text).calls) ∧
      (c.NewMessage render now s name frm text).started = []) ∧
    (∀ id s1 e s2, c.store.GetMessageID s name = (.ok id, s1) →
      c.store.AddMessage s1 name
        { ID := id, Time := now, HTML := render text, Approve := false } = (some e, s2) →
      (c.NewMessage render now s name frm text).err ≠ none ∧
      (c.NewMessage render now s name frm text).calls
        = [StoreCall.GetMessageID name,
           StoreCall.AddMessage name
             { ID := id, Time := now, HTML := render text, Approve := false }] ∧
      (c.NewMessage render now s name frm text).started = []) ∧
    ((c.NewMessage render now s name frm text).calls = [] ∨
      (c.NewMessage render now s name frm text).calls = [StoreCall.GetMessageID name] ∨
      ∃ m, (c.NewMessage render now s name frm text).calls
        = [StoreCall.GetMessageID name, StoreCall.AddMessage name m]) := by
  refine ⟨?_, ?_, ?_⟩
  · intro e s1 hid
    simp [Chat.NewMessage, h, hid]
  · intro id s1 e s2 hid hadd
    simp [Chat.NewMessage, h, hid, hadd]
  · simp only [Chat.NewMessage, h]
    split
    · simp
    · split
      · exact Or.inr (Or.inr ⟨_, rfl⟩)
      · exact Or.inr (Or.inr ⟨_, rfl⟩)

/-- C5 at concrete inputs: "lobby" with member 1, on a store whose GetMessageID
fails and on a store whose AddMessage fails. -/
theorem store_failure_aborts_post_witness :
    ((((New (memoryStore true false false)).NewClient "lobby" 1).1.NewMessage
        id "now" (0, []) "lobby" 1 "hi").err ≠ none ∧
      (((New (memoryStore true false false)).NewClient "lobby" 1).1.NewMessage
        id "now" (0, []) "lobby" 1 "hi").calls = [StoreCall.GetMessageID "lobby"] ∧
      (∀ k m, StoreCall.AddMessage k m ∉
        (((New (memoryStore true false false)).NewClient "lobby" 1).1.NewMessage
          id "now" (0, []) "lobby" 1 "hi").calls) ∧
      (((New (memoryStore true false false)).NewClient "lobby" 1).1.NewMessage
        id "now" (0, []) "lobby" 1 "hi").started = []) ∧
    ((((New (memoryStore false true false)).NewClient "lobby" 1).1.NewMessage
        id "now" (0, []) "lobby" 1 "hi").err ≠ none ∧
      (((New (memoryStore false true false)).NewClient "lobby" 1).1.NewMessage
        id "now" (0, []) "lobby" 1 "hi").calls
        = [StoreCall.GetMessageID "lobby",
           StoreCall.AddMessage "lobby"
             { ID := 1, Time := "now", HTML := "hi", Approve := false }] ∧
      (((New (memoryStore false true false)).NewClient "lobby" 1).1.NewMessage
        id "now" (0, []) "lobby" 1 "hi").started = []) :=
  ⟨(store_failure_aborts_post id "now" ((New (memoryStore true false false)).NewClient
      "lobby" 1).1 (0, []) "lobby" 1 "hi" { name := "lobby", clients := [1] } (by rfl)).1
      "GetMessageID failed" (0, []) (by rfl),
   (store_failure_aborts_post id "now" ((New (memoryStore false true false)).NewClient
      "lobby" 1).1 (0, []) "lobby" 1 "hi" { name := "lobby", clients := [1] } (by rfl)).2.1
      1 (1, []) "AddMessage failed" (1, []) (by rfl) (by rfl)⟩

/-- C6: on a registered room, when GetMessageID returns `id` and AddMessage
succeeds, NewMessage returns nil; its store calls are that GetMessageID and
one AddMessage, whose message has ID `id`, the formatted current time, HTML
`render text` and Approve false; and the goroutines it starts are exactly one
broadcast, on that room, with author `frm` and that same message. -/
theorem successful_post {σ : Type} (render : String → String) (now : String)
    (c : Chat σ) (s s1 s2 : σ) (name : String) (frm : Connection) (text : String)
    (r : room) (id : Nat) (h : mapGet c.rooms name = some r)
    (hid : c.store.GetMessageID s name = (.ok id, s1))
    (hadd : c.store.AddMessage s1 name
      { ID := id, Time := now, HTML := render text, Approve := false } = (none, s2)) :
    (c.NewMessage render now s name frm text).err = none ∧
    (c.NewMessage render now s name frm text).store = s2 ∧
    (c.NewMessage render now s name frm text).calls
      = [StoreCall.GetMessageID name,
         StoreCall.AddMessage name
           { ID := id, Time := now, HTML := render text, Approve := false }] ∧
    (∀ k m, StoreCall.AddMessage k m ∈ (c.NewMessage render now s name frm text).calls →
      k = name ∧ m.ID = id ∧ m.Time = now ∧ m.HTML = render text ∧ m.Approve = false) ∧
    (c.NewMessage render now s name frm text).started
      = [Goroutine.broadcast name frm
          { ID := id, Time := now, HTML := render text, Approve := false }] := by
  have hcalls : (c.NewMessage render now s name frm text).calls
      = [StoreCall.GetMessageID name,
         StoreCall.AddMessage name
           { ID := id, Time := now, HTML := render text, Approve := false }] := by
    simp [Chat.NewMessage, h, hid, hadd]
  refine ⟨?_, ?_, hcalls, ?_, ?_⟩
  · simp [Chat.NewMessage, h, hid, hadd]
  · simp [Chat.NewMessage, h, hid, hadd]
  · intro k m hm
    rw [hcalls] at hm
    simp at hm
    obtain ⟨hk, hm1⟩ := hm
    subst hm1
    exact ⟨hk, rfl, rfl, rfl, rfl⟩
  · simp [Chat.NewMessage, h, hid, hadd]

/-- C6 at a concrete input: member 1 posts "hi" to "lobby" on a working store
that has issued no ID yet. -/
theorem successful_post_witness :
    (((New (memoryStore false false false)).NewClient "lobby" 1).1.NewMessage
        id "now" (0, []) "lobby" 1 "hi").err = none ∧
    (((New (memoryStore false false false)).NewClient "lobby" 1).1.NewMessage
        id "now" (0, []) "lobby" 1 "hi").started
      = [Goroutine.broadcast "lobby" 1
          { ID := 1, Time := "now", HTML := "hi", Approve := false }] :=
  ⟨(successful_post id "now" ((New (memoryStore false false false)).NewClient "lobby" 1).1
      (0, []) (1, []) (1, [{ ID := 1, Time := "now", HTML := "hi", Approve := false }])
      "lobby" 1 "hi" { name := "lobby", clients := [1] } 1 (by rfl) (by rfl) (by rfl)).1,
   (successful_post id "now" ((New (memoryStore false false false)).NewClient "lobby" 1).1
      (0, []) (1, []) (1, [{ ID := 1, Time := "now", HTML := "hi", Approve := false }])
      "lobby" 1 "hi" { name := "lobby", clients := [1] } 1 (by rfl) (by rfl) (by rfl)).2.2.2.2⟩

/-! ## History on join (C8) -/

/-- C8: NewClient starts exactly one history goroutine, for the joining
connection.  Its body calls GetMessages once; when that returns a non-empty
list the connection calls it makes are exactly one SendMessages with that list
on the joining connection, and when it returns an error or an empty list it
makes no connection call; no call is ever made on another connection.
Whatever GetMessages returns, the joining connection is a member of the room
after NewClient, which has no error to return. -/
theorem history_push_on_join {σ : Type} (c : Chat σ) (s : σ) (name : String)
    (conn : Connection) :
    (c.NewClient name conn).2
      = [Goroutine.broadcastClientsCount name, Goroutine.history name conn] ∧
    ((c.NewClient name conn).1.history s name conn).2.1 = [StoreCall.GetMessages name] ∧
    (∀ msgs s1, c.store.GetMessages s name = (.ok msgs, s1) → msgs ≠ [] →
      ((c.NewClient name conn).1.history s name conn).2.2 = [Send.SendMessages conn msgs]) ∧
    (∀ s1, c.store.GetMessages s name = (.ok [], s1) →
      ((c.NewClient name conn).1.history s name conn).2.2 = []) ∧
    (∀ e s1, c.store.GetMessages s name = (.error e, s1) →
      ((c.NewClient name conn).1.history s name conn).2.2 = []) ∧
    (∀ ev ∈ ((c.NewClient name conn).1.history s name conn).2.2, ev.receiver = conn) ∧
    (∃ r, mapGet (c.NewClient name conn).1.rooms name = some r ∧ conn ∈ r.clients) := by
  have hstore : (c.NewClient name conn).1.store = c.store := rfl
  refine ⟨rfl, ?_, ?_, ?_, ?_, ?_, ?_⟩
  · simp only [Chat.history, hstore]
    split
    · rfl
    · split <;> rfl
  · intro msgs s1 hget hne
    have hpos : msgs.length > 0 := List.length_pos.mpr hne
    simp [Chat.history, hstore, hget, hpos]
  · intro s1 hget
    simp [Chat.history, hstore, hget]
  · intro e s1 hget
    simp [Chat.history, hstore, hget]
  · intro ev hev
    simp only [Chat.history, hstore] at hev
    split at hev
    · cases hev
    · split at hev
      · rw [List.mem_singleton] at hev
        rw [hev]
        rfl
      · cases hev
  · have hmem : ∀ r : room, conn ∈ (r.newClient conn).clients := by
      intro r
      unfold room.newClient
      split_ifs with hm
      · exact hm
      · simp
    cases hg : mapGet c.rooms name with
    | none =>
      exact ⟨(newRoom name).newClient conn,
        by simp [Chat.NewClient, mapGet_mapSet, hg], hmem _⟩
    | some r0 =>
      exact ⟨r0.newClient conn, by simp [Chat.NewClient, mapGet_mapSet, hg], hmem _⟩

/-- C8 at concrete inputs: connection 2 joins "lobby" when the store holds one
message, when it holds none, and when GetMessages fails. -/
theorem history_push_on_join_witness :
    (((New (memoryStore false false false)).NewClient "lobby" 2).1.history
        (1, [{ ID := 1, Time := "now", HTML := "hi", Approve := false }]) "lobby" 2).2.2
      = [Send.SendMessages 2 [{ ID := 1, Time := "now", HTML := "hi", Approve := false }]] ∧
    (((New (memoryStore false false false)).NewClient "lobby" 2).1.history
        (0, []) "lobby" 2).2.2 = [] ∧
    (((New (memoryStore false false true)).NewClient "lobby" 2).1.history
        (1, [{ ID := 1, Time := "now", HTML := "hi", Approve := false }]) "lobby" 2).2.2
      = [] :=
  ⟨(history_push_on_join (New (memoryStore false false false))
      (1, [{ ID := 1, Time := "now", HTML := "hi", Approve := false }]) "lobby" 2).2.2.1
      [{ ID := 1, Time := "now", HTML := "hi", Approve := false }]
      (1, [{ ID := 1, Time := "now", HTML := "hi", Approve := false }]) (by rfl) (by simp),
   (history_push_on_join (New (memoryStore false false false)) (0, []) "lobby" 2).2.2.2.1
      (0, []) (by rfl),
   (history_push_on_join (New (memoryStore false false true))
      (1, [{ ID := 1, Time := "now", HTML := "hi", Approve := false }]) "lobby" 2).2.2.2.2.1
      "GetMessages failed"
      (1, [{ ID := 1, Time := "now", HTML := "hi", Approve := false }]) (by rfl)⟩

/-! ## Member count (C7) -/

theorem newClient_nodup (r : room) (conn : Connection) (h : r.clients.Nodup) :
    (r.newClient conn).clients.Nodup := by
  unfold room.newClient
  split_ifs with hm
  · exact h
  · simp only
    rw [List.nodup_append]
    refine ⟨h, List.nodup_singleton conn, ?_⟩
    intro x hx hx1
    rw [List.mem_singleton] at hx1
    exact hm (hx1 ▸ hx)

theorem newClient_toFinset (r : room) (conn : Connection) :
    (r.newClient conn).clients.toFinset = insert conn r.clients.toFinset := by
  unfold room.newClient
  split_ifs with hm
  · simp only
    rw [Finset.insert_eq_of_mem (List.mem_toFinset.mpr hm)]
  · ext x
    simp [or_comm]

theorem removeClient_nodup (r : room) (conn : Connection) (h : r.clients.Nodup) :
    (r.removeClient conn).clients.Nodup :=
  List.Nodup.filter _ h

theorem removeClient_toFinset (r : room) (conn : Connection) :
    (r.removeClient conn).clients.toFinset = r.clients.toFinset.erase conn := by
  ext x
  simp [room.removeClient, and_comm]

theorem removeClient_count_zero_iff (r : room) (conn : Connection) :
    (r.removeClient conn).clientsCount = 0 ↔ (r.removeClient conn).clients = [] := by
  simp [room.clientsCount]

theorem step_agrees {σ : Type} (c : Chat σ) (f : String → Finset Connection) (op : Op)
    (h : Agrees c.rooms f) : Agrees (c.step op).rooms (joinedStep f op) := by
  intro k
  cases op with
  | NewClient name conn =>
    simp only [Chat.step, Chat.NewClient, joinedStep, mapGet_mapSet]
    by_cases hk : k = name
    · subst hk
      simp only [if_true]
      refine ⟨?_, fun hn => (by cases hn)⟩
      intro r hr
      cases hg : mapGet c.rooms k with
      | none =>
        rw [hg] at hr
        simp only [Option.some.injEq] at hr
        subst hr
        refine ⟨newClient_nodup _ _ List.nodup_nil, newClient_clients_ne_nil _ _, ?_⟩
        rw [newClient_toFinset, (h k).2 hg]
        simp [newRoom]
      | some r0 =>
        rw [hg] at hr
        simp only [Option.some.injEq] at hr
        subst hr
        obtain ⟨h1, _, h3⟩ := (h k).1 r0 hg
        exact ⟨newClient_nodup _ _ h1, newClient_clients_ne_nil _ _, by
          rw [newClient_toFinset, h3]⟩
    · simp only [if_neg hk]
      exact h k
  | RemoveClient name conn =>
    simp only [Chat.step, Chat.RemoveClient, joinedStep]
    cases hg : mapGet c.rooms name with
    | none =>
      simp only
      by_cases hk : k = name
      · subst hk
        simp only [if_true]
        refine ⟨fun r hr => (by rw [hg] at hr; cases hr), fun _ => ?_⟩
        rw [(h k).2 hg]
        simp
      · simp only [if_neg hk]
        exact h k
    | some r0 =>
      obtain ⟨h1, _, h3⟩ := (h name).1 r0 hg
      simp only
      by_cases hz : (r0.removeClient conn).clientsCount = 0
      · simp only [if_pos hz, mapGet_mapDelete]
        by_cases hk : k = name
        · subst hk
          simp only [if_true]
          refine ⟨fun r hr => (by cases hr), fun _ => ?_⟩
          rw [← h3, ← removeClient_toFinset, (removeClient_count_zero_iff _ _).mp hz]
          rfl
        · simp only [if_neg hk]
          exact h k
      · simp only [if_neg hz, mapGet_mapSet]
        by_cases hk : k = name
        · subst hk
          simp only [if_true]
          refine ⟨?_, fun hn => (by cases hn)⟩
          intro r hr
          simp only [Option.some.injEq] at hr
          subst hr
          refine ⟨removeClient_nodup _ _ h1, ?_, ?_⟩
          · intro he
            exact hz ((removeClient_count_zero_iff _ _).mpr he)
          · rw [removeClient_toFinset, h3]
        · simp only [if_neg hk]
          exact h k

theorem joinedNotRemoved_append_singleton (ops : List Op) (op : Op) :
    joinedNotRemoved (ops ++ [op]) = joinedStep (joinedNotRemoved ops) op := by
  funext k
  show List.foldl joinedStep (fun _ => ∅) (ops ++ [op]) k
    = joinedStep (List.foldl joinedStep (fun _ => ∅) ops) op k
  rw [List.foldl_append]
  rfl

theorem run_agrees {σ : Type} (S : Store σ) (ops : List Op) :
    Agrees ((New S).run ops).rooms (joinedNotRemoved ops) := by
  induction ops using List.reverseRecOn with
  | nil =>
    intro k
    simp [Chat.run, New, mapGet, joinedNotRemoved]
  | append_singleton ops op ih =>
    rw [run_append_singleton, joinedNotRemoved_append_singleton]
    exact step_agrees _ _ op ih

theorem reportedCount_eq_card {σ : Type} (S : Store σ) (ops : List Op) (name : String) :
    ((New S).run ops).reportedCount name = (joinedNotRemoved ops name).card := by
  have h := run_agrees S ops name
  unfold Chat.reportedCount
  cases hg : mapGet ((New S).run ops).rooms name with
  | none =>
    simp only
    rw [h.2 hg]
    rfl
  | some r =>
    obtain ⟨h1, _, h3⟩ := h.1 r hg
    simp only [room.clientsCount]
    rw [← h3, List.toFinset_card_of_nodup h1]

theorem receiver_SendClientsCount (x : Connection) (n : Nat) :
    (Send.SendClientsCount x n).receiver = x := rfl

theorem count_loop_to (l : List Connection) (conn : Connection) (n : Nat) :
    (l.map (fun x => Send.SendClientsCount x n)).filter (fun e => decide (e.receiver = conn))
      = (l.filter (fun x => decide (x = conn))).map (fun x => Send.SendClientsCount x n) := by
  induction l with
  | nil => simp
  | cons x xs ih =>
    by_cases hx : x = conn
    · subst hx
      simpa [List.filter_cons, receiver_SendClientsCount] using ih
    · simpa [List.filter_cons, receiver_SendClientsCount, hx] using ih

/-- C7: after any sequence of NewClient and RemoveClient calls starting from
`New`, the member count reported for a room name is the number of distinct
handles joined to it and not since removed; the registered room's
broadcastClientsCount makes exactly one call on each such handle, a
SendClientsCount with that number, and no call on any other connection.  A
NewClient with a handle already joined, and a RemoveClient on a registered
room with a handle not joined, leave the reported count as it was. -/
theorem member_count_is_exact {σ : Type} (S : Store σ) (ops : List Op) (name : String)
    (conn : Connection) :
    ((New S).run ops).reportedCount name = (joinedNotRemoved ops name).card ∧
    (∀ r, mapGet ((New S).run ops).rooms name = some r →
      r.clientsCount = (joinedNotRemoved ops name).card ∧
      (∀ x ∈ joinedNotRemoved ops name,
        r.broadcastClientsCount.filter (fun e => decide (e.receiver = x))
          = [Send.SendClientsCount x (joinedNotRemoved ops name).card]) ∧
      (∀ e ∈ r.broadcastClientsCount, e.receiver ∈ joinedNotRemoved ops name)) ∧
    (conn ∈ joinedNotRemoved ops name →
      (((New S).run ops).NewClient name conn).1.reportedCount name
        = ((New S).run ops).reportedCount name) ∧
    (conn ∉ joinedNotRemoved ops name → mapGet ((New S).run ops).rooms name ≠ none →
      (((New S).run ops).RemoveClient name conn).1.reportedCount name
        = ((New S).run ops).reportedCount name) := by
  have hcount := reportedCount_eq_card S ops name
  refine ⟨hcount, ?_, ?_, ?_⟩
  · intro r hr
    obtain ⟨h1, _, h3⟩ := (run_agrees S ops name).1 r hr
    have hlen : r.clients.length = (joinedNotRemoved ops name).card := by
      rw [← h3, List.toFinset_card_of_nodup h1]
    refine ⟨hlen, ?_, ?_⟩
    · intro x hx
      rw [← h3, List.mem_toFinset] at hx
      unfold room.broadcastClientsCount
      simp only
      rw [count_loop_to, filter_eq_singleton_of_nodup _ _ h1 hx, hlen]
      rfl
    · intro e he
      unfold room.broadcastClientsCount at he
      rcases List.mem_map.mp he with ⟨x, hx, hxe⟩
      rw [← hxe, ← h3, List.mem_toFinset]
      exact hx
  · intro hmem
    have hnext := reportedCount_eq_card S (ops ++ [Op.NewClient name conn]) name
    rw [run_append_singleton, joinedNotRemoved_append_singleton] at hnext
    simp only [Chat.step, joinedStep, if_true] at hnext
    rw [hnext, hcount, Finset.insert_eq_of_mem hmem]
  · intro hmem _
    have hnext := reportedCount_eq_card S (ops ++ [Op.RemoveClient name conn]) name
    rw [run_append_singleton, joinedNotRemoved_append_singleton] at hnext
    simp only [Chat.step, joinedStep, if_true] at hnext
    rw [hnext, hcount, Finset.erase_eq_of_not_mem hmem]

/-- C7 at a concrete input: on "lobby", 1 joins, 2 joins, 2 joins again, 1
leaves, 5 (never joined) leaves: one member is left, and joining 2 once more
or removing 9 keeps the count at one. -/
theorem member_count_is_exact_witness :
    ((New (memoryStore false false false)).run
        [Op.NewClient "lobby" 1, Op.NewClient "lobby" 2, Op.NewClient "lobby" 2,
         Op.RemoveClient "lobby" 1, Op.RemoveClient "lobby" 5]).reportedCount "lobby" = 1 ∧
    room.broadcastClientsCount { name := "lobby", clients := [2] }
      = [Send.SendClientsCount 2 1] ∧
    ((((New (memoryStore false false false)).run
        [Op.NewClient "lobby" 1, Op.NewClient "lobby" 2, Op.NewClient "lobby" 2,
         Op.RemoveClient "lobby" 1, Op.RemoveClient "lobby" 5]).NewClient
        "lobby" 2).1.reportedCount "lobby"
      = ((New (memoryStore false false false)).run
        [Op.NewClient "lobby" 1, Op.NewClient "lobby" 2, Op.NewClient "lobby" 2,
         Op.RemoveClient "lobby" 1, Op.RemoveClient "lobby" 5]).reportedCount "lobby") ∧
    ((((New (memoryStore false false false)).run
        [Op.NewClient "lobby" 1, Op.NewClient "lobby" 2, Op.NewClient "lobby" 2,
         Op.RemoveClient "lobby" 1, Op.RemoveClient "lobby" 5]).RemoveClient
        "lobby" 9).1.reportedCount "lobby"
      = ((New (memoryStore false false false)).run
        [Op.NewClient "lobby" 1, Op.NewClient "lobby" 2, Op.NewClient "lobby" 2,
         Op.RemoveClient "lobby" 1, Op.RemoveClient "lobby" 5]).reportedCount "lobby") :=
  ⟨by rfl, by rfl,
   (member_count_is_exact (memoryStore false false false)
      [Op.NewClient "lobby" 1, Op.NewClient "lobby" 2, Op.NewClient "lobby" 2,
       Op.RemoveClient "lobby" 1, Op.RemoveClient "lobby" 5] "lobby" 2).2.2.1 (by decide),
   (member_count_is_exact (memoryStore false false false)
      [Op.NewClient "lobby" 1, Op.NewClient "lobby" 2, Op.NewClient "lobby" 2,
       Op.RemoveClient "lobby" 1, Op.RemoveClient "lobby" 5] "lobby" 9).2.2.2
      (by decide) (by decide)⟩

/-! ## Redis store retention (C9) -/

theorem int64_uintSub_zero : int64 (uintSub 0 1) = -1 := by
  simp [int64, uintSub]

theorem int64_uintSub_pos (limit : Nat) (h1 : 1 ≤ limit) (h2 : limit ≤ 2 ^ 63) :
    int64 (uintSub limit 1) = ((limit - 1 : Nat) : Int) := by
  have h3 : limit ≤ 9223372036854775808 := by simpa using h2
  have e : uintSub limit 1 = limit - 1 := by
    simp only [uintSub, Nat.reducePow]
    omega
  rw [e]
  simp only [int64, Nat.reducePow]
  have h4 : (limit - 1) % 18446744073709551616 = limit - 1 := by omega
  rw [h4, if_pos (by omega)]

theorem redisRange_zero_nonneg (l : List String) (n : Nat) :
    redisRange l 0 ((n : Nat) : Int) = l.take (n + 1) := by
  unfold redisRange
  simp only
  split_ifs
  all_goals first
    | omega
    | (have hl : l.length = 0 := by omega
       rw [List.length_eq_zero.mp hl]
       rfl)
    | (have e1 : ((l.length : Int) - 1 - 0 + 1).toNat = l.length := by omega
       have e2 : l.length ≤ n + 1 := by omega
       rw [e1, List.take_of_length_le e2]
       simp)
    | (have e1 : ((n : Int) - 0 + 1).toNat = n + 1 := by omega
       rw [e1]
       simp)

theorem redisRange_zero_minus_one (l : List String) : redisRange l 0 (-1) = l := by
  unfold redisRange
  simp only
  split_ifs
  all_goals first
    | omega
    | (have hl : l.length = 0 := by omega
       rw [List.length_eq_zero.mp hl])
    | (have e1 : ((l.length : Int) + -1 - 0 + 1).toNat = l.length := by omega
       rw [e1]
       simp)

theorem roundTrip_lists (db : Redis) : db.roundTrip.2.lists = db.lists := by
  unfold Redis.roundTrip
  split <;> rfl

theorem exec_success (db : Redis) (pipe : List Cmd) (h : (db.Exec pipe).1 = none) :
    (db.Exec pipe).2.lists = pipe.foldl (fun l c => c.apply l) db.lists := by
  have hl := roundTrip_lists db
  unfold Redis.Exec at h ⊢
  split at h
  · cases h
  · rename_i db1 heq
    rw [heq] at hl
    simp only at hl ⊢
    rw [hl]

theorem trim_after_push (lists : List (String × List String)) (key t : String) (stop : Int) :
    (mapGet ((Cmd.LTrim key 0 stop).apply ((Cmd.LPush key t).apply lists)) key).getD []
      = redisRange (t :: (mapGet lists key).getD []) 0 stop := by
  simp only [Cmd.apply, mapGet_mapSet, if_true]
  split_ifs with hr
  · rw [mapGet_mapDelete, if_pos rfl, hr, Option.getD_none]
  · rw [mapGet_mapSet, if_pos rfl, Option.getD_some]

theorem addMessage_success (J : JSON) (s : redisChatStore) (db : Redis) (room : String)
    (m : Message) (h : (redisChatStore.AddMessage J s db room m).1 = none) :
    J.Marshal m = .ok (J.text m) ∧
    (mapGet (redisChatStore.AddMessage J s db room m).2.lists (room ++ "/messages")).getD []
      = redisRange (J.text m :: (mapGet db.lists (room ++ "/messages")).getD []) 0
          (int64 (uintSub s.maxMessagesPerRoom 1)) := by
  unfold redisChatStore.AddMessage at h ⊢
  generalize int64 (uintSub s.maxMessagesPerRoom 1) = stop at h ⊢
  cases hM : J.Marshal m with
  | error e =>
    rw [hM] at h
    cases h
  | ok t =>
    rw [hM] at h
    have ht : J.text m = t := by
      unfold JSON.text
      rw [hM]
    simp only at h ⊢
    rw [exec_success _ _ h, ht]
    exact ⟨rfl, trim_after_push db.lists (room ++ "/messages") t stop⟩

theorem addAll_list (J : JSON) (s : redisChatStore) (room : String) (msgs : List Message) :
    ∀ db db1 : Redis, redisChatStore.addAll J s room db msgs = some db1 →
      (∀ m ∈ msgs, J.Marshal m = .ok (J.text m)) ∧
      (mapGet db1.lists (room ++ "/messages")).getD []
        = msgs.foldl (fun l m => redisRange (J.text m :: l) 0
            (int64 (uintSub s.maxMessagesPerRoom 1)))
            ((mapGet db.lists (room ++ "/messages")).getD []) := by
  induction msgs with
  | nil =>
    intro db db1 h
    simp only [redisChatStore.addAll, Option.some.injEq] at h
    subst h
    exact ⟨fun m hm => (by cases hm), rfl⟩
  | cons m rest ih =>
    intro db db1 h
    rw [redisChatStore.addAll] at h
    have hfst : (redisChatStore.AddMessage J s db room m).1 = none := by
      cases hp : redisChatStore.AddMessage J s db room m with
      | mk e d =>
        rw [hp] at h
        cases e with
        | none => rfl
        | some e1 => cases h
    have hpair : redisChatStore.AddMessage J s db room m
        = (none, (redisChatStore.AddMessage J s db room m).2) := by
      rw [← hfst]
    rw [hpair] at h
    obtain ⟨hm1, hm2⟩ := addMessage_success J s db room m hfst
    obtain ⟨h1, h2⟩ := ih _ _ h
    refine ⟨?_, ?_⟩
    · intro x hx
      rcases List.mem_cons.mp hx with hx1 | hx1
      · rw [hx1]
        exact hm1
      · exact h1 x hx1
    · rw [h2, hm2, List.foldl_cons]

theorem getMessages_success (J : JSON) (s : redisChatStore) (db : Redis) (room : String)
    (h : db.roundTrip.1 = none) :
    (redisChatStore.GetMessages J s db room).1
      = redisChatStore.decode J
          (redisRange ((mapGet db.lists (room ++ "/messages")).getD []) 0
            (int64 (uintSub s.maxMessagesPerRoom 1))).reverse [] := by
  have hl := roundTrip_lists db
  unfold redisChatStore.GetMessages Redis.LRange
  generalize int64 (uintSub s.maxMessagesPerRoom 1) = stop
  cases hp : db.roundTrip with
  | mk e d =>
    rw [hp] at h hl
    simp only at h hl
    subst h
    simp only [hl]

theorem decode_map (J : JSON) (enc : Message → String) (ms : List Message)
    (hU : ∀ m ∈ ms, J.Unmarshal (enc m) = .ok m) :
    ∀ acc : List Message, redisChatStore.decode J (ms.map enc) acc = .ok (acc ++ ms) := by
  induction ms with
  | nil =>
    intro acc
    simp [redisChatStore.decode]
  | cons m rest ih =>
    intro acc
    simp only [List.map_cons, redisChatStore.decode, hU m (List.mem_cons_self _ _)]
    rw [ih (fun x hx => hU x (List.mem_cons_of_mem _ hx))]
    simp

theorem foldl_keep_all (enc : Message → String) (msgs : List Message) (l0 : List String) :
    msgs.foldl (fun l m => enc m :: l) l0 = msgs.reverse.map enc ++ l0 := by
  induction msgs generalizing l0 with
  | nil => rfl
  | cons m rest ih =>
    simp only [List.foldl_cons, ih, List.reverse_cons, List.map_append, List.map_cons,
      List.map_nil, List.append_assoc, List.singleton_append]

theorem foldl_keep_limit (enc : Message → String) (limit : Nat) (h1 : 1 ≤ limit)
    (msgs : List Message) (l0 : List String) :
    msgs.foldl (fun l m => (enc m :: l).take limit) (l0.take limit)
      = (msgs.reverse.map enc ++ l0).take limit := by
  induction msgs using List.reverseRecOn with
  | nil => simp
  | append_singleton ms m ih =>
    rw [List.foldl_append, List.foldl_cons, List.foldl_nil, ih]
    obtain ⟨n, rfl⟩ : ∃ n, limit = n + 1 := ⟨limit - 1, by omega⟩
    simp only [List.reverse_append, List.reverse_singleton, List.singleton_append,
      List.map_cons, List.cons_append, List.take_succ_cons, List.take_take]
    congr 2
    omega

theorem foldl_keep_limit_cons (enc : Message → String) (limit : Nat) (h1 : 1 ≤ limit)
    (m : Message) (rest : List Message) (l0 : List String) :
    (m :: rest).foldl (fun l x => (enc x :: l).take limit) l0
      = ((m :: rest).reverse.map enc ++ l0).take limit := by
  rw [List.foldl_cons, foldl_keep_limit enc limit h1 rest (enc m :: l0)]
  simp

/-- C9, for a limit between 1 and 2^63: after more than `limit`
AddMessage calls on one room that all returned nil (for `msgs`, oldest first,
whatever the server held before), a GetMessages whose round trip succeeds
returns exactly the last `limit` messages of `msgs`, oldest first, given that
Unmarshal returns each message from the text Marshal produced for it. -/
theorem retention_for_positive_limit (J : JSON) (limit : Nat) (room : String)
    (msgs : List Message) (db db1 : Redis) (h1 : 1 ≤ limit) (h2 : limit ≤ 2 ^ 63)
    (hk : limit < msgs.length)
    (hadd : redisChatStore.addAll J { maxMessagesPerRoom := limit } room db msgs = some db1)
    (hup : db1.roundTrip.1 = none)
    (hU : ∀ m ∈ msgs, ∀ t, J.Marshal m = .ok t → J.Unmarshal t = .ok m) :
    (redisChatStore.GetMessages J { maxMessagesPerRoom := limit } db1 room).1
      = .ok (msgs.drop (msgs.length - limit)) ∧
    (msgs.drop (msgs.length - limit)).length = limit := by
  obtain ⟨hM, hl⟩ := addAll_list J { maxMessagesPerRoom := limit } room msgs db db1 hadd
  refine ⟨?_, by rw [List.length_drop]; omega⟩
  rw [getMessages_success J _ db1 room hup, hl]
  simp only [int64_uintSub_pos limit h1 h2, redisRange_zero_nonneg, Nat.sub_add_cancel h1]
  cases msgs with
  | nil => simp at hk
  | cons m rest =>
    rw [foldl_keep_limit_cons J.text limit h1, List.take_take, Nat.min_self]
    have hlen : limit ≤ ((m :: rest).reverse.map J.text).length := by
      rw [List.length_map, List.length_reverse]
      exact Nat.le_of_lt hk
    rw [List.take_append_of_le_length hlen, ← List.map_take, List.take_reverse,
      ← List.map_reverse, List.reverse_reverse]
    rw [decode_map J J.text _
      (fun x hx => hU x (List.mem_of_mem_drop hx) _ (hM x (List.mem_of_mem_drop hx)))]
    rfl

/-- C9 at a concrete input: limit 2 and three messages posted to
"lobby", which held two older entries; GetMessages returns the last two posted,
oldest first. -/
theorem retention_for_positive_limit_witness :
    (redisChatStore.GetMessages htmlJSON { maxMessagesPerRoom := 2 }
        { lists := [("lobby/messages", ["c", "b"])], errors := [] } "lobby").1
      = .ok [{ ID := 0, Time := "", HTML := "b", Approve := false },
             { ID := 0, Time := "", HTML := "c", Approve := false }] :=
  (retention_for_positive_limit htmlJSON 2 "lobby"
    [{ ID := 0, Time := "", HTML := "a", Approve := false },
     { ID := 0, Time := "", HTML := "b", Approve := false },
     { ID := 0, Time := "", HTML := "c", Approve := false }]
    { lists := [("lobby/messages", ["y", "x"])], errors := [none] }
    { lists := [("lobby/messages", ["c", "b"])], errors := [] }
    (by decide) (by decide) (by decide) (by rfl) (by rfl)
    (by
      intro m hm t ht
      simp only [List.mem_cons, List.mem_singleton, List.not_mem_nil, or_false] at hm
      rcases hm with h | h | h
      · subst h
        cases ht
        rfl
      · subst h
        cases ht
        rfl
      · subst h
        cases ht
        rfl)).1

/-- C9 at the limit 0, where it fails: after one AddMessage on an empty server
returned nil (so that more than `limit` messages were posted), GetMessages
returns that message and not the most recent zero messages. -/
theorem retention_fails_at_zero_limit :
    redisChatStore.addAll htmlJSON { maxMessagesPerRoom := 0 } "lobby"
        { lists := [], errors := [] }
        [{ ID := 0, Time := "", HTML := "hi", Approve := false }]
      = some { lists := [("lobby/messages", ["hi"])], errors := [] } ∧
    0 < [({ ID := 0, Time := "", HTML := "hi", Approve := false } : Message)].length ∧
    (redisChatStore.GetMessages htmlJSON { maxMessagesPerRoom := 0 }
        { lists := [("lobby/messages", ["hi"])], errors := [] } "lobby").1
      = .ok [{ ID := 0, Time := "", HTML := "hi", Approve := false }] ∧
    (redisChatStore.GetMessages htmlJSON { maxMessagesPerRoom := 0 }
        { lists := [("lobby/messages", ["hi"])], errors := [] } "lobby").1
      ≠ .ok (([{ ID := 0, Time := "", HTML := "hi", Approve := false }] : List Message).drop
          (([{ ID := 0, Time := "", HTML := "hi", Approve := false }] : List Message).length
            - 0)) := by
  refine ⟨by rfl, by decide, by rfl, ?_⟩
  intro h
  have h2 : (redisChatStore.GetMessages htmlJSON { maxMessagesPerRoom := 0 }
      { lists := [("lobby/messages", ["hi"])], errors := [] } "lobby").1
      = .ok [{ ID := 0, Time := "", HTML := "hi", Approve := false }] := by rfl
  rw [h2] at h
  simp at h

theorem int64_uintSub_large (limit : Nat) (h1 : 2 ^ 63 < limit) (h2 : limit < 2 ^ 64) :
    int64 (uintSub limit 1) < -1 := by
  have h3 : 9223372036854775808 < limit := by simpa using h1
  have h4 : limit < 18446744073709551616 := by simpa using h2
  have e : uintSub limit 1 = limit - 1 := by
    simp only [uintSub, Nat.reducePow]
    omega
  rw [e]
  simp only [int64, Nat.reducePow]
  have h5 : (limit - 1) % 18446744073709551616 = limit - 1 := by omega
  rw [h5, if_neg (by omega)]
  omega

theorem redisRange_singleton_below (t : String) (stop : Int) (h : stop < -1) :
    redisRange [t] 0 stop = [] := by
  unfold redisRange
  simp only [List.length_singleton]
  split_ifs
  all_goals first
    | rfl
    | omega

/-- With `maxMessagesPerRoom = 0`, on a room with no stored list, after
AddMessage calls for `msgs` (oldest first) that all returned nil, a GetMessages
whose round trip succeeds returns all of `msgs`: the index `limit - 1` wraps
around to -1, the last element of the list, and nothing is evicted. -/
theorem zero_limit_retains_everything (J : JSON) (room : String) (msgs : List Message)
    (db db1 : Redis) (h0 : mapGet db.lists (room ++ "/messages") = none)
    (hadd : redisChatStore.addAll J { maxMessagesPerRoom := 0 } room db msgs = some db1)
    (hup : db1.roundTrip.1 = none)
    (hU : ∀ m ∈ msgs, ∀ t, J.Marshal m = .ok t → J.Unmarshal t = .ok m) :
    (redisChatStore.GetMessages J { maxMessagesPerRoom := 0 } db1 room).1 = .ok msgs := by
  obtain ⟨hM, hl⟩ := addAll_list J { maxMessagesPerRoom := 0 } room msgs db db1 hadd
  rw [getMessages_success J _ db1 room hup, hl, h0, Option.getD_none]
  simp only [int64_uintSub_zero, redisRange_zero_minus_one]
  rw [foldl_keep_all, List.append_nil, ← List.map_reverse, List.reverse_reverse]
  rw [decode_map J J.text _ (fun x hx => hU x hx _ (hM x hx))]
  rfl

/-- With a limit above 2^63 the index `int64(limit - 1)` is negative and below
-1: on a room with no stored list, after AddMessage calls that all returned
nil, a GetMessages whose round trip succeeds returns no message at all. -/
theorem limit_above_int64_retains_nothing (J : JSON) (limit : Nat) (room : String)
    (msgs : List Message) (db db1 : Redis) (h1 : 2 ^ 63 < limit) (h2 : limit < 2 ^ 64)
    (h0 : mapGet db.lists (room ++ "/messages") = none)
    (hadd : redisChatStore.addAll J { maxMessagesPerRoom := limit } room db msgs = some db1)
    (hup : db1.roundTrip.1 = none) :
    (redisChatStore.GetMessages J { maxMessagesPerRoom := limit } db1 room).1 = .ok [] := by
  obtain ⟨_, hl⟩ := addAll_list J { maxMessagesPerRoom := limit } room msgs db db1 hadd
  have hneg := int64_uintSub_large limit h1 h2
  rw [getMessages_success J _ db1 room hup, hl, h0, Option.getD_none]
  simp only at hneg ⊢
  generalize int64 (uintSub limit 1) = stop at hneg ⊢
  have hfold : ∀ ms : List Message,
      ms.foldl (fun l m => redisRange (J.text m :: l) 0 stop) [] = [] := by
    intro ms
    induction ms with
    | nil => rfl
    | cons m rest ih =>
      rw [List.foldl_cons, redisRange_singleton_below _ _ hneg]
      exact ih
  rw [hfold]
  have hnil : redisRange [] 0 stop = [] := by
    unfold redisRange
    simp
  rw [hnil]
  rfl

end Gochat
